import Mathlib

/-!
Shallow embedding of the cloth-simulation core of `src/main.cpp`:
particles (`Point`), distance constraints (`Link`), the relaxation
solver (`solveLink` and the per-frame iteration), perspective
projection and its depth-constrained inverse, the segment-intersection
cutting test, and the per-frame control flow of `main`.
Machine floats are modelled as real numbers.
-/

noncomputable section

namespace FabricSim

/-- Configuration constants of the source (`main.cpp` top of file). -/
def GRAVITY : ℝ := 0.35

def AIR_FRICTION : ℝ := 0.98

def STRETCH_LIMIT : ℝ := 5.0

/-- Model of `sf::Vector3f`. -/
@[ext]
structure Vec3 where
  x : ℝ
  y : ℝ
  z : ℝ

instance : Add Vec3 := ⟨fun a b => ⟨a.x + b.x, a.y + b.y, a.z + b.z⟩⟩

instance : Sub Vec3 := ⟨fun a b => ⟨a.x - b.x, a.y - b.y, a.z - b.z⟩⟩

/-- `v * c` (componentwise scaling, as `sf::Vector3f * float`). -/
def Vec3.smul (v : Vec3) (c : ℝ) : Vec3 := ⟨v.x * c, v.y * c, v.z * c⟩

def Vec3.neg (v : Vec3) : Vec3 := ⟨-v.x, -v.y, -v.z⟩

@[simp] theorem Vec3.add_def (a b : Vec3) : a + b = ⟨a.x + b.x, a.y + b.y, a.z + b.z⟩ := rfl

@[simp] theorem Vec3.sub_def (a b : Vec3) : a - b = ⟨a.x - b.x, a.y - b.y, a.z - b.z⟩ := rfl

/-- Euclidean length, as `std::sqrt(d.x*d.x + d.y*d.y + d.z*d.z)`. -/
def norm3 (v : Vec3) : ℝ := Real.sqrt (v.x * v.x + v.y * v.y + v.z * v.z)

/-- Model of `struct Point`: current position, previous position,
pinned flag and mouse-grab flag. -/
structure Point where
  pos : Vec3
  prevPos : Vec3
  locked : Bool
  isGrabbed : Bool

/-- The default used for out-of-range index reads. -/
def defaultPoint : Point := ⟨⟨0, 0, 0⟩, ⟨0, 0, 0⟩, false, false⟩

/-- `Point::Point(x, y, z)`: created at rest (`pos == prevPos`), unlocked. -/
def mkPoint (x y z : ℝ) : Point := ⟨⟨x, y, z⟩, ⟨x, y, z⟩, false, false⟩

/-- `Point::update(time)`: Verlet integration with air friction and
gravity, plus the sine-wave wind on the z axis and its damping. -/
def Point.update (p : Point) (time : ℝ) : Point :=
  if p.locked || p.isGrabbed then p
  else
    let vel := (p.pos - p.prevPos).smul AIR_FRICTION
    let newPrev := p.pos
    let pos1 := p.pos + vel
    let pos2 : Vec3 := ⟨pos1.x, pos1.y + GRAVITY, pos1.z⟩
    let pos3 : Vec3 := ⟨pos2.x, pos2.y, pos2.z + Real.sin (time + pos2.x * 0.05) * 0.15⟩
    let pos4 : Vec3 := ⟨pos3.x, pos3.y, pos3.z * 0.99⟩
    { p with pos := pos4, prevPos := newPrev }

/-- Model of `struct Link`.  The C++ version holds raw pointers into the
particle vector; here a link holds the two indices into the point list. -/
structure Link where
  i1 : Nat
  i2 : Nat
  targetDist : ℝ
  broken : Bool

def defaultLink : Link := ⟨0, 0, 0, false⟩

/-- The live Euclidean distance between a link's two endpoints. -/
def linkDist (pts : List Point) (l : Link) : ℝ :=
  norm3 ((pts.getD l.i1 defaultPoint).pos - (pts.getD l.i2 defaultPoint).pos)

/-- `p->pos += off` guarded by `!p->locked && !p->isGrabbed`
(the per-endpoint correction step of `Link::solve`). -/
def movePoint (pts : List Point) (i : Nat) (off : Vec3) : List Point :=
  let p := pts.getD i defaultPoint
  if !p.locked && !p.isGrabbed then pts.set i { p with pos := p.pos + off } else pts

/-- `Link::solve()`: no-op if broken; tear when overstretched; skip when
nearly coincident; otherwise move each free endpoint by half the error. -/
def solveLink (pts : List Point) (l : Link) : List Point × Link :=
  if l.broken then (pts, l)
  else
    let p1 := pts.getD l.i1 defaultPoint
    let p2 := pts.getD l.i2 defaultPoint
    let diff := p1.pos - p2.pos
    let dist := norm3 diff
    if dist > l.targetDist * STRETCH_LIMIT then (pts, { l with broken := true })
    else if dist < 0.1 then (pts, l)
    else
      let factor := (l.targetDist - dist) / dist * 0.5
      let offset := diff.smul factor
      (movePoint (movePoint pts l.i1 offset) l.i2 offset.neg, l)

/-- One pass of `for (auto &l : links) l.solve();`. -/
def solveAll : List Point → List Link → List Point × List Link
  | pts, [] => (pts, [])
  | pts, l :: ls =>
    let s := solveLink pts l
    let r := solveAll s.1 ls
    (r.1, s.2 :: r.2)

/-- The fixed-iteration solver block (`for (int i = 0; i < 8; i++) ...`). -/
def solveIterations : Nat → List Point → List Link → List Point × List Link
  | 0, pts, ls => (pts, ls)
  | n + 1, pts, ls =>
    let s := solveAll pts ls
    solveIterations n s.1 s.2

/-- Repeated `Link::solve` on a single constraint in isolation. -/
def iterLink : Nat → List Point × Link → List Point × Link
  | 0, s => s
  | n + 1, s => iterLink n (solveLink s.1 s.2)

/-- `project(p, winSize)`: pinhole perspective divide. -/
def project (p : Vec3) (w h : ℝ) : ℝ × ℝ :=
  let focalLength : ℝ := 900
  let perspective := focalLength / (focalLength + p.z + 500)
  (w / 2 + p.x * perspective, h / 10 + p.y * perspective)

/-- The inverse projection at a known depth, as used by the dragging code
of `main` (`grabbedPoint->pos.x = (mPos.x - winSize.x / 2.f) / perspective`).  -/
def screenToWorldAtDepth (s : ℝ × ℝ) (z w h : ℝ) : Vec3 :=
  let focalLength : ℝ := 900
  let perspective := focalLength / (focalLength + z + 500)
  ⟨(s.1 - w / 2) / perspective, (s.2 - h / 10) / perspective, z⟩

/-- The `ccw` helper of `intersects` (strict signed-area orientation). -/
def ccw (p0 p1 p2 : ℝ × ℝ) : Bool :=
  decide ((p2.2 - p0.2) * (p1.1 - p0.1) > (p1.2 - p0.2) * (p2.1 - p0.1))

/-- `intersects(a, b, c, d)`: 2D segment-intersection test used for cutting. -/
def intersects (a b c d : ℝ × ℝ) : Bool :=
  (ccw a c d != ccw b c d) && (ccw a b c != ccw a b d)

/-- The body of the cutting loop for one link: break it when the mouse
trail crosses its projected segment. -/
def cutLink (pts : List Point) (lastM m : ℝ × ℝ) (w h : ℝ) (l : Link) : Link :=
  let q1 := project (pts.getD l.i1 defaultPoint).pos w h
  let q2 := project (pts.getD l.i2 defaultPoint).pos w h
  if intersects lastM m q1 q2 then { l with broken := true } else l

/-- The cutting loop over all links. -/
def cutPass (pts : List Point) (lastM m : ℝ × ℝ) (w h : ℝ) (ls : List Link) : List Link :=
  ls.map (cutLink pts lastM m w h)

/-- Per-frame external input: mouse position, window size, the two mouse
button states and the elapsed time (all polled once per frame in `main`). -/
structure FrameInput where
  mouse : ℝ × ℝ
  winW : ℝ
  winH : ℝ
  pressLeft : Bool
  releaseLeft : Bool
  rightHeld : Bool
  time : ℝ

/-- The mutable state of `main`: the point and link containers, the
currently grabbed point (`grabbedPoint`, as an index option) and the
previous frame's mouse position. -/
structure World where
  points : List Point
  links : List Link
  grabbed : Option Nat
  lastMouse : ℝ × ℝ

/-- One step of the nearest-point search of the press handler: keep the
candidate when it is closer than the best so far and not locked. -/
def pickStep (mx my w h : ℝ) (acc : ℝ × Option Nat) (ip : Nat × Point) : ℝ × Option Nat :=
  let proj := project ip.2.pos w h
  let dx := proj.1 - mx
  let dy := proj.2 - my
  let d := Real.sqrt (dx * dx + dy * dy)
  if d < acc.1 ∧ ip.2.locked = false then (d, some ip.1) else acc

/-- The nearest-point search of the left-press handler (interaction
radius 50, scanning all points in order). -/
def pickPoint (pts : List Point) (mx my w h : ℝ) : Option Nat :=
  (pts.enum.foldl (pickStep mx my w h) (50, none)).2

/-- Left-press handling: run the pick scan (which overwrites
`grabbedPoint` only on a hit), then set `isGrabbed` when it is non-null. -/
def handlePress (st : World) (inp : FrameInput) : World :=
  if inp.pressLeft then
    let g :=
      match pickPoint st.points inp.mouse.1 inp.mouse.2 inp.winW inp.winH with
      | some i => some i
      | none => st.grabbed
    match g with
    | some i =>
      let p := st.points.getD i defaultPoint
      { st with points := st.points.set i { p with isGrabbed := true }, grabbed := some i }
    | none => st
  else st

/-- Left-release handling: clear `isGrabbed` and null `grabbedPoint`. -/
def handleRelease (st : World) (inp : FrameInput) : World :=
  if inp.releaseLeft then
    match st.grabbed with
    | some i =>
      let p := st.points.getD i defaultPoint
      { st with points := st.points.set i { p with isGrabbed := false }, grabbed := none }
    | none => st
  else st

/-- Dragging: overwrite the grabbed point's x/y from the mouse by inverse
projection at its current depth, and zero its implicit velocity. -/
def handleDrag (st : World) (inp : FrameInput) : World :=
  match st.grabbed with
  | some i =>
    let p := st.points.getD i defaultPoint
    let newPos := screenToWorldAtDepth inp.mouse p.pos.z inp.winW inp.winH
    { st with points := st.points.set i { p with pos := newPos, prevPos := newPos } }
  | none => st

/-- The right-button cutting phase. -/
def handleCut (st : World) (inp : FrameInput) : World :=
  if inp.rightHeld then
    { st with links := cutPass st.points st.lastMouse inp.mouse inp.winW inp.winH st.links }
  else st

/-- One iteration of the main loop: input handling, dragging, cutting,
eight relaxation passes, eviction of broken links, point integration
(at `elapsed * 1.5`), and the mouse-trail update. -/
def frame (st : World) (inp : FrameInput) : World :=
  let st1 := handlePress st inp
  let st2 := handleRelease st1 inp
  let st3 := handleDrag st2 inp
  let st4 := handleCut st3 inp
  let s := solveIterations 8 st4.points st4.links
  let ls := s.2.filter (fun l => !l.broken)
  let pts := s.1.map (fun p => p.update (inp.time * 1.5))
  { points := pts, links := ls, grabbed := st4.grabbed, lastMouse := inp.mouse }

/-- A sequence of frames. -/
def runFrames (st : World) (inps : List FrameInput) : World :=
  inps.foldl frame st

/-- Grid construction of `main`, step 2: points row by row, centered
horizontally, with the top row locked. -/
def mkGridPoints (W H : Nat) (D : ℝ) : List Point :=
  (List.range H).flatMap fun y =>
    (List.range W).map fun x =>
      let p := mkPoint ((x : ℝ) * D - ((W : ℝ) * D) / 2) ((y : ℝ) * D) 0
      if y == 0 then { p with locked := true } else p

/-- `Link::Link(a, b)`: the rest length is the distance at creation. -/
def mkLink (pts : List Point) (i j : Nat) : Link :=
  ⟨i, j, norm3 ((pts.getD i defaultPoint).pos - (pts.getD j defaultPoint).pos), false⟩

/-- Grid construction of `main`, step 3: a link to the right neighbour
and a link to the neighbour below, wherever those exist. -/
def mkGridLinks (pts : List Point) (W H : Nat) : List Link :=
  (List.range H).flatMap fun y =>
    (List.range W).flatMap fun x =>
      (if x < W - 1 then [mkLink pts (y * W + x) (y * W + x + 1)] else []) ++
      (if y < H - 1 then [mkLink pts (y * W + x) ((y + 1) * W + x)] else [])

/-! Generic list-access helpers. -/

theorem getD_set_self {α : Type} (l : List α) (i : Nat) (a d : α) (h : i < l.length) :
    (l.set i a).getD i d = a := by
  simp [List.getD_eq_getElem?_getD, List.getElem?_set_eq_of_lt a h]

theorem getD_set_ne {α : Type} (l : List α) (i j : Nat) (a d : α) (h : i ≠ j) :
    (l.set i a).getD j d = l.getD j d := by
  simp [List.getD_eq_getElem?_getD, List.getElem?_set_ne h]

theorem set_getD_self {α : Type} (l : List α) (i : Nat) (d : α) :
    l.set i (l.getD i d) = l := by
  induction l generalizing i with
  | nil => rfl
  | cons x xs ih =>
    cases i with
    | zero => rfl
    | succ n =>
      show x :: xs.set n ((x :: xs).getD (n + 1) d) = x :: xs
      rw [List.getD_cons_succ, ih n]

theorem getD_map_lt (f : Point → Point) (l : List Point) (j : Nat) (d : Point)
    (h : j < l.length) : (l.map f).getD j d = f (l.getD j d) := by
  simp [List.getD_eq_getElem?_getD, List.getElem?_eq_getElem h]

theorem getD_len_le {α : Type} (l : List α) (j : Nat) (d : α) (h : l.length ≤ j) :
    l.getD j d = d := by
  simp [List.getD_eq_getElem?_getD, List.getElem?_eq_none h]

theorem getD_enum (l : List Point) (q : Nat × Point) (hq : q ∈ l.enum) :
    l.getD q.1 defaultPoint = q.2 := by
  have h := List.mem_enum_iff_getElem?.mp hq
  simp [List.getD_eq_getElem?_getD, h]

/-! Norm helpers. -/

theorem norm3_nonneg (v : Vec3) : 0 ≤ norm3 v := Real.sqrt_nonneg _

theorem norm3_smul (v : Vec3) (c : ℝ) : norm3 (v.smul c) = |c| * norm3 v := by
  unfold norm3 Vec3.smul
  rw [show v.x * c * (v.x * c) + v.y * c * (v.y * c) + v.z * c * (v.z * c) =
      c ^ 2 * (v.x * v.x + v.y * v.y + v.z * v.z) by ring]
  rw [Real.sqrt_mul (sq_nonneg c), Real.sqrt_sq_eq_abs]

/-! How one `Link::solve` transforms each point: flags and `prevPos` are
untouched, and a locked or grabbed point is untouched entirely. -/

def SolveView (p q : Point) : Prop :=
  q.locked = p.locked ∧ q.isGrabbed = p.isGrabbed ∧ q.prevPos = p.prevPos ∧
    (p.locked = true ∨ p.isGrabbed = true → q = p)

theorem solveView_id (p : Point) : SolveView p p := ⟨rfl, rfl, rfl, fun _ => rfl⟩

theorem solveView_comp {p q r : Point} (h1 : SolveView p q) (h2 : SolveView q r) :
    SolveView p r := by
  obtain ⟨a1, b1, c1, d1⟩ := h1
  obtain ⟨a2, b2, c2, d2⟩ := h2
  refine ⟨a2.trans a1, b2.trans b1, c2.trans c1, fun h => ?_⟩
  have hq := d1 h
  have : q.locked = true ∨ q.isGrabbed = true := by
    rcases h with h | h
    · exact Or.inl (a1.trans h)
    · exact Or.inr (b1.trans h)
  exact (d2 this).trans hq

theorem movePoint_length (pts : List Point) (i : Nat) (off : Vec3) :
    (movePoint pts i off).length = pts.length := by
  unfold movePoint
  dsimp only
  split <;> simp

theorem movePoint_view (pts : List Point) (i : Nat) (off : Vec3) (j : Nat) :
    SolveView (pts.getD j defaultPoint) ((movePoint pts i off).getD j defaultPoint) := by
  unfold movePoint
  dsimp only
  split
  · rename_i hfree
    by_cases hij : i = j
    · subst hij
      by_cases hlen : i < pts.length
      · rw [getD_set_self _ _ _ _ hlen]
        simp only [Bool.and_eq_true, Bool.not_eq_true'] at hfree
        exact ⟨rfl, rfl, rfl, fun h => by
          rcases h with h | h
          · rw [hfree.1] at h; exact absurd h (by simp)
          · rw [hfree.2] at h; exact absurd h (by simp)⟩
      · rw [List.set_eq_of_length_le (Nat.le_of_not_lt hlen)]
        exact solveView_id _
    · rw [getD_set_ne _ _ _ _ _ hij]
      exact solveView_id _
  · exact solveView_id _

theorem solveLink_points_length (pts : List Point) (l : Link) :
    ((solveLink pts l).1).length = pts.length := by
  unfold solveLink
  split
  · rfl
  · dsimp only
    split
    · rfl
    · split
      · rfl
      · simp [movePoint_length]

theorem solveLink_view (pts : List Point) (l : Link) (j : Nat) :
    SolveView (pts.getD j defaultPoint) (((solveLink pts l).1).getD j defaultPoint) := by
  unfold solveLink
  split
  · exact solveView_id _
  · dsimp only
    split
    · exact solveView_id _
    · split
      · exact solveView_id _
      · exact solveView_comp (movePoint_view ..) (movePoint_view ..)

theorem solveAll_points_length (pts : List Point) (ls : List Link) :
    ((solveAll pts ls).1).length = pts.length := by
  induction ls generalizing pts with
  | nil => rfl
  | cons l ls ih =>
    show ((solveAll (solveLink pts l).1 ls).1).length = pts.length
    rw [ih, solveLink_points_length]

theorem solveAll_view (pts : List Point) (ls : List Link) (j : Nat) :
    SolveView (pts.getD j defaultPoint) (((solveAll pts ls).1).getD j defaultPoint) := by
  induction ls generalizing pts with
  | nil => exact solveView_id _
  | cons l ls ih =>
    exact solveView_comp (solveLink_view pts l j) (ih (solveLink pts l).1)

theorem solveIterations_points_length (n : Nat) (pts : List Point) (ls : List Link) :
    ((solveIterations n pts ls).1).length = pts.length := by
  induction n generalizing pts ls with
  | zero => rfl
  | succ n ih =>
    show ((solveIterations n (solveAll pts ls).1 (solveAll pts ls).2).1).length = pts.length
    rw [ih, solveAll_points_length]

theorem solveIterations_view (n : Nat) (pts : List Point) (ls : List Link) (j : Nat) :
    SolveView (pts.getD j defaultPoint) (((solveIterations n pts ls).1).getD j defaultPoint) := by
  induction n generalizing pts ls with
  | zero => exact solveView_id _
  | succ n ih =>
    exact solveView_comp (solveAll_view pts ls j) (ih (solveAll pts ls).1 (solveAll pts ls).2)

/-! The pick scan only ever selects unlocked points. -/

theorem pickAux_locked (pts : List Point) (mx my ww wh : ℝ) :
    ∀ (pairs : List (Nat × Point)) (acc : ℝ × Option Nat),
      (∀ q ∈ pairs, pts.getD q.1 defaultPoint = q.2) →
      (∀ i, acc.2 = some i → (pts.getD i defaultPoint).locked = false) →
      ∀ i, (pairs.foldl (pickStep mx my ww wh) acc).2 = some i →
        (pts.getD i defaultPoint).locked = false := by
  intro pairs
  induction pairs with
  | nil => exact fun acc _ hacc i hf => hacc i hf
  | cons q qs ih =>
    intro acc hmem hacc i hf
    refine ih (pickStep mx my ww wh acc q) (fun r hr => hmem r (List.mem_cons_of_mem _ hr)) ?_ i hf
    intro i2 h2
    unfold pickStep at h2
    dsimp only at h2
    split at h2
    · rename_i hcond
      simp only at h2
      cases h2
      rw [hmem q (List.mem_cons_self ..)]
      exact hcond.2
    · exact hacc i2 h2

theorem pickPoint_locked (pts : List Point) (mx my ww wh : ℝ) (i : Nat)
    (hpick : pickPoint pts mx my ww wh = some i) :
    (pts.getD i defaultPoint).locked = false := by
  refine pickAux_locked pts mx my ww wh pts.enum (50, none) ?_ ?_ i hpick
  · exact fun q hq => getD_enum pts q hq
  · intro j hj
    exact absurd hj (by simp)

/-! Frame-level preservation of locked points. -/

/-- What a frame phase may do to a single point while respecting the
lock invariant: the lock flag survives, and a locked point is frozen. -/
def LockView (p q : Point) : Prop :=
  q.locked = p.locked ∧ (p.locked = true → q = p)

theorem lockView_id (p : Point) : LockView p p := ⟨rfl, fun _ => rfl⟩

theorem lockView_comp {p q r : Point} (h1 : LockView p q) (h2 : LockView q r) :
    LockView p r :=
  ⟨h2.1.trans h1.1, fun h => (h2.2 (h1.1.trans h)).trans (h1.2 h)⟩

theorem solveView_to_lockView {p q : Point} (h : SolveView p q) : LockView p q :=
  ⟨h.1, fun hl => h.2.2.2 (Or.inl hl)⟩

/-- Well-formedness of the interaction state: `grabbedPoint` only ever
refers to an unlocked point (the pick scan filters out locked ones). -/
def WF (st : World) : Prop :=
  ∀ i, st.grabbed = some i → (st.points.getD i defaultPoint).locked = false

theorem defaultPoint_locked : defaultPoint.locked = false := rfl

theorem set_lockview (pts : List Point) (i : Nat) (q : Point)
    (hlock : (pts.getD i defaultPoint).locked = false) (hq : q.locked = false) :
    (pts.set i q).length = pts.length ∧
    (∀ j, LockView (pts.getD j defaultPoint) ((pts.set i q).getD j defaultPoint)) ∧
    ((pts.set i q).getD i defaultPoint).locked = false := by
  refine ⟨by simp, fun j => ?_, ?_⟩
  · by_cases hij : i = j
    · subst hij
      by_cases hlen : i < pts.length
      · rw [getD_set_self _ _ _ _ hlen]
        exact ⟨hq.trans hlock.symm, fun h => by rw [hlock] at h; simp at h⟩
      · rw [List.set_eq_of_length_le (Nat.le_of_not_lt hlen)]
        exact lockView_id _
    · rw [getD_set_ne _ _ _ _ _ hij]
      exact lockView_id _
  · by_cases hlen : i < pts.length
    · rw [getD_set_self _ _ _ _ hlen]; exact hq
    · rw [List.set_eq_of_length_le (Nat.le_of_not_lt hlen)]; exact hlock

theorem handlePress_props (st : World) (inp : FrameInput) (hwf : WF st) :
    (handlePress st inp).points.length = st.points.length ∧
    (∀ j, LockView (st.points.getD j defaultPoint)
      ((handlePress st inp).points.getD j defaultPoint)) ∧
    WF (handlePress st inp) := by
  cases hp : inp.pressLeft
  · have heq : handlePress st inp = st := by simp [handlePress, hp]
    rw [heq]
    exact ⟨rfl, fun j => lockView_id _, hwf⟩
  · cases hpk : pickPoint st.points inp.mouse.1 inp.mouse.2 inp.winW inp.winH with
    | some i =>
      have hlock := pickPoint_locked _ _ _ _ _ _ hpk
      have heq : handlePress st inp =
          { st with
            points := st.points.set i ({ st.points.getD i defaultPoint with isGrabbed := true }),
            grabbed := some i } := by
        simp [handlePress, hp, hpk]
      have hs := set_lockview st.points i
        { st.points.getD i defaultPoint with isGrabbed := true } hlock hlock
      rw [heq]
      refine ⟨hs.1, hs.2.1, fun k hk => ?_⟩
      simp only at hk
      cases hk
      exact hs.2.2
    | none =>
      cases hg : st.grabbed with
      | some i =>
        have hlock := hwf i hg
        have heq : handlePress st inp =
            { st with
              points := st.points.set i ({ st.points.getD i defaultPoint with isGrabbed := true }),
              grabbed := some i } := by
          simp [handlePress, hp, hpk, hg]
        have hs := set_lockview st.points i
          { st.points.getD i defaultPoint with isGrabbed := true } hlock hlock
        rw [heq]
        refine ⟨hs.1, hs.2.1, fun k hk => ?_⟩
        simp only at hk
        cases hk
        exact hs.2.2
      | none =>
        have heq : handlePress st inp = st := by simp [handlePress, hp, hpk, hg]
        rw [heq]
        exact ⟨rfl, fun j => lockView_id _, hwf⟩

theorem handleRelease_props (st : World) (inp : FrameInput) (hwf : WF st) :
    (handleRelease st inp).points.length = st.points.length ∧
    (∀ j, LockView (st.points.getD j defaultPoint)
      ((handleRelease st inp).points.getD j defaultPoint)) ∧
    WF (handleRelease st inp) := by
  cases hr : inp.releaseLeft
  · have heq : handleRelease st inp = st := by simp [handleRelease, hr]
    rw [heq]
    exact ⟨rfl, fun j => lockView_id _, hwf⟩
  · cases hg : st.grabbed with
    | some i =>
      have hlock := hwf i hg
      have heq : handleRelease st inp =
          { st with
            points := st.points.set i ({ st.points.getD i defaultPoint with isGrabbed := false }),
            grabbed := none } := by
        simp [handleRelease, hr, hg]
      have hs := set_lockview st.points i
        { st.points.getD i defaultPoint with isGrabbed := false } hlock hlock
      rw [heq]
      exact ⟨hs.1, hs.2.1, fun k hk => by simp only at hk; cases hk⟩
    | none =>
      have heq : handleRelease st inp = st := by simp [handleRelease, hr, hg]
      rw [heq]
      exact ⟨rfl, fun j => lockView_id _, hwf⟩

theorem handleDrag_props (st : World) (inp : FrameInput) (hwf : WF st) :
    (handleDrag st inp).points.length = st.points.length ∧
    (∀ j, LockView (st.points.getD j defaultPoint)
      ((handleDrag st inp).points.getD j defaultPoint)) ∧
    WF (handleDrag st inp) := by
  cases hg : st.grabbed with
  | some i =>
    have hlock := hwf i hg
    have heq : handleDrag st inp =
        { st with
          points := st.points.set i ({ st.points.getD i defaultPoint with pos := screenToWorldAtDepth inp.mouse (st.points.getD i defaultPoint).pos.z inp.winW inp.winH, prevPos := screenToWorldAtDepth inp.mouse (st.points.getD i defaultPoint).pos.z inp.winW inp.winH }) } := by
      simp [handleDrag, hg]
    have hs := set_lockview st.points i
      { st.points.getD i defaultPoint with
          pos := screenToWorldAtDepth inp.mouse
            (st.points.getD i defaultPoint).pos.z inp.winW inp.winH,
          prevPos := screenToWorldAtDepth inp.mouse
            (st.points.getD i defaultPoint).pos.z inp.winW inp.winH } hlock hlock
    rw [heq]
    refine ⟨hs.1, hs.2.1, fun k hk => ?_⟩
    simp only at hk
    rw [hg] at hk
    cases hk
    exact hs.2.2
  | none =>
    have heq : handleDrag st inp = st := by simp [handleDrag, hg]
    rw [heq]
    exact ⟨rfl, fun j => lockView_id _, hwf⟩

theorem handleCut_points (st : World) (inp : FrameInput) :
    (handleCut st inp).points = st.points ∧ (handleCut st inp).grabbed = st.grabbed := by
  unfold handleCut
  split <;> exact ⟨rfl, rfl⟩

theorem update_props (p : Point) (t : ℝ) :
    (p.update t).locked = p.locked ∧ (p.update t).isGrabbed = p.isGrabbed ∧
    (p.locked = true → p.update t = p) ∧ (p.isGrabbed = true → p.update t = p) := by
  unfold Point.update
  split
  · exact ⟨rfl, rfl, fun _ => rfl, fun _ => rfl⟩
  · rename_i hcond
    simp only [Bool.or_eq_true, not_or, Bool.not_eq_true] at hcond
    exact ⟨rfl, rfl, fun h => absurd h (by simp [hcond.1]),
      fun h => absurd h (by simp [hcond.2])⟩

theorem frame_props (st : World) (inp : FrameInput) (hwf : WF st) :
    (frame st inp).points.length = st.points.length ∧
    (∀ j, LockView (st.points.getD j defaultPoint)
      ((frame st inp).points.getD j defaultPoint)) ∧
    WF (frame st inp) := by
  obtain ⟨hl1, hv1, hwf1⟩ := handlePress_props st inp hwf
  obtain ⟨hl2, hv2, hwf2⟩ := handleRelease_props (handlePress st inp) inp hwf1
  obtain ⟨hl3, hv3, hwf3⟩ := handleDrag_props (handleRelease (handlePress st inp) inp) inp hwf2
  set st3 := handleDrag (handleRelease (handlePress st inp) inp) inp with hst3
  obtain ⟨hc1, hc2⟩ := handleCut_points st3 inp
  set st4 := handleCut st3 inp with hst4
  have hframe : frame st inp =
      { points := ((solveIterations 8 st4.points st4.links).1).map
          (fun p => p.update (inp.time * 1.5)),
        links := ((solveIterations 8 st4.points st4.links).2).filter (fun l => !l.broken),
        grabbed := st4.grabbed, lastMouse := inp.mouse } := rfl
  have hlen4 : st4.points.length = st.points.length := by
    rw [hc1]; rw [hl3, hl2, hl1]
  have hlenS : ((solveIterations 8 st4.points st4.links).1).length = st.points.length := by
    rw [solveIterations_points_length, hlen4]
  refine ⟨?_, ?_, ?_⟩
  · rw [hframe]; simpa using hlenS
  · intro j
    have hv4 : LockView (st.points.getD j defaultPoint) (st4.points.getD j defaultPoint) := by
      rw [hc1]
      exact lockView_comp (lockView_comp (hv1 j) (hv2 j)) (hv3 j)
    have hvS := solveView_to_lockView (solveIterations_view 8 st4.points st4.links j)
    have hvAll := lockView_comp hv4 hvS
    set ptsS := (solveIterations 8 st4.points st4.links).1 with hptsS
    have hup : LockView (ptsS.getD j defaultPoint)
        ((ptsS.map (fun p => p.update (inp.time * 1.5))).getD j defaultPoint) := by
      by_cases hlen : j < ptsS.length
      · rw [getD_map_lt _ _ _ _ hlen]
        obtain ⟨hu1, _, hu3, _⟩ := update_props (ptsS.getD j defaultPoint) (inp.time * 1.5)
        exact ⟨hu1, hu3⟩
      · rw [getD_len_le _ _ _ (Nat.le_of_not_lt hlen),
          getD_len_le _ _ _ (by simpa using Nat.le_of_not_lt hlen)]
        exact lockView_id _
    rw [hframe]
    exact lockView_comp hvAll hup
  · intro k hk
    rw [hframe] at hk
    simp only at hk
    have hwf4 : (st4.points.getD k defaultPoint).locked = false := by
      rw [hc1]
      exact hwf3 k (hc2 ▸ hk)
    have hvS := solveView_to_lockView (solveIterations_view 8 st4.points st4.links k)
    set ptsS := (solveIterations 8 st4.points st4.links).1 with hptsS
    have hlockS : (ptsS.getD k defaultPoint).locked = false := by
      rw [hvS.1, hwf4]
    rw [hframe]
    simp only
    by_cases hlen : k < ptsS.length
    · rw [getD_map_lt _ _ _ _ hlen]
      rw [(update_props (ptsS.getD k defaultPoint) (inp.time * 1.5)).1, hlockS]
    · rw [getD_len_le _ _ _ (by simpa using Nat.le_of_not_lt hlen)]
      rfl

theorem runFrames_locked (st : World) (inps : List FrameInput) (hwf : WF st) (j : Nat) :
    LockView (st.points.getD j defaultPoint)
      ((runFrames st inps).points.getD j defaultPoint) ∧ WF (runFrames st inps) := by
  induction inps generalizing st with
  | nil => exact ⟨lockView_id _, hwf⟩
  | cons inp inps ih =>
    obtain ⟨_, hv, hwf1⟩ := frame_props st inp hwf
    obtain ⟨hv2, hwf2⟩ := ih (frame st inp) hwf1
    exact ⟨lockView_comp (hv j) hv2, hwf2⟩

/-! Branch structure of `Link::solve`. -/

theorem solveLink_eq (pts : List Point) (l : Link) (hb : l.broken = false) :
    solveLink pts l =
      if linkDist pts l > l.targetDist * STRETCH_LIMIT then (pts, { l with broken := true })
      else if linkDist pts l < 0.1 then (pts, l)
      else
        (movePoint (movePoint pts l.i1
            (((pts.getD l.i1 defaultPoint).pos - (pts.getD l.i2 defaultPoint).pos).smul
              ((l.targetDist - linkDist pts l) / linkDist pts l * 0.5))) l.i2
            ((((pts.getD l.i1 defaultPoint).pos - (pts.getD l.i2 defaultPoint).pos).smul
              ((l.targetDist - linkDist pts l) / linkDist pts l * 0.5)).neg), l) := by
  unfold solveLink
  rw [if_neg (by simp [hb])]
  rfl

theorem solveLink_broken_of_broken (pts : List Point) (l : Link) (hb : l.broken = true) :
    solveLink pts l = (pts, l) := by
  unfold solveLink
  rw [if_pos hb]

theorem movePoint_free_eq (pts : List Point) (i : Nat) (off : Vec3)
    (hl : (pts.getD i defaultPoint).locked = false)
    (hg : (pts.getD i defaultPoint).isGrabbed = false) :
    movePoint pts i off =
      pts.set i ({ pts.getD i defaultPoint with pos := (pts.getD i defaultPoint).pos + off }) := by
  unfold movePoint
  dsimp only
  rw [if_pos (by simp only [Bool.and_eq_true, Bool.not_eq_true']; exact ⟨hl, hg⟩)]

theorem movePoint_zero_off (pts : List Point) (i : Nat) (off : Vec3)
    (hx : off.x = 0) (hy : off.y = 0) (hz : off.z = 0) : movePoint pts i off = pts := by
  unfold movePoint
  dsimp only
  split
  · have hpos : (pts.getD i defaultPoint).pos + off = (pts.getD i defaultPoint).pos := by
      ext <;> simp [hx, hy, hz]
    rw [hpos]
    exact set_getD_self pts i defaultPoint
  · rfl

/-- A link sitting exactly at its rest length is left alone by `solve`. -/
theorem solveLink_at_rest (pts : List Point) (l : Link)
    (hb : l.broken = false) (hrest : linkDist pts l = l.targetDist) :
    solveLink pts l = (pts, l) := by
  have hL : 0 ≤ l.targetDist := hrest ▸ norm3_nonneg _
  rw [solveLink_eq pts l hb]
  rw [if_neg (by rw [hrest]; simp only [STRETCH_LIMIT]; push_neg; nlinarith)]
  by_cases hsmall : linkDist pts l < 0.1
  · rw [if_pos hsmall]
  · rw [if_neg hsmall]
    have hfac : (l.targetDist - linkDist pts l) / linkDist pts l * 0.5 = 0 := by
      rw [hrest, sub_self, zero_div, zero_mul]
    have hoff0 : ((pts.getD l.i1 defaultPoint).pos - (pts.getD l.i2 defaultPoint).pos).smul
        ((l.targetDist - linkDist pts l) / linkDist pts l * 0.5) = (⟨0, 0, 0⟩ : Vec3) := by
      ext <;> simp [Vec3.smul, hfac]
    have hneg0 : (⟨0, 0, 0⟩ : Vec3).neg = (⟨0, 0, 0⟩ : Vec3) := by
      ext <;> simp [Vec3.neg]
    rw [hoff0, hneg0, movePoint_zero_off _ _ _ rfl rfl rfl, movePoint_zero_off _ _ _ rfl rfl rfl]

/-- The correction branch restores the rest length in one pass when both
endpoints are free and distinct. -/
theorem solveLink_restores (pts : List Point) (l : Link)
    (h1 : l.i1 < pts.length) (h2 : l.i2 < pts.length) (hne : l.i1 ≠ l.i2)
    (hl1 : (pts.getD l.i1 defaultPoint).locked = false)
    (hg1 : (pts.getD l.i1 defaultPoint).isGrabbed = false)
    (hl2 : (pts.getD l.i2 defaultPoint).locked = false)
    (hg2 : (pts.getD l.i2 defaultPoint).isGrabbed = false)
    (hb : l.broken = false) (hL : 0 ≤ l.targetDist)
    (hd1 : 0.1 ≤ linkDist pts l) (hd2 : linkDist pts l ≤ l.targetDist * STRETCH_LIMIT) :
    (solveLink pts l).2 = l ∧ linkDist (solveLink pts l).1 l = l.targetDist := by
  have hdpos : 0 < linkDist pts l := lt_of_lt_of_le (by norm_num) hd1
  have hdne : linkDist pts l ≠ 0 := ne_of_gt hdpos
  rw [solveLink_eq pts l hb, if_neg (not_lt.mpr hd2), if_neg (not_lt.mpr hd1)]
  refine ⟨rfl, ?_⟩
  set d := linkDist pts l with hd
  set L := l.targetDist with hLdef
  set p1 := pts.getD l.i1 defaultPoint with hp1
  set p2 := pts.getD l.i2 defaultPoint with hp2
  set off := (p1.pos - p2.pos).smul ((L - d) / d * 0.5) with hoff
  have hm1 : movePoint pts l.i1 off = pts.set l.i1 ({ p1 with pos := p1.pos + off }) :=
    movePoint_free_eq pts l.i1 off hl1 hg1
  have hsetlen : (pts.set l.i1 ({ p1 with pos := p1.pos + off })).length = pts.length := by simp
  have hget2 : (pts.set l.i1 ({ p1 with pos := p1.pos + off })).getD l.i2 defaultPoint = p2 :=
    getD_set_ne _ _ _ _ _ hne
  have hm2 : movePoint (pts.set l.i1 ({ p1 with pos := p1.pos + off })) l.i2 off.neg =
      (pts.set l.i1 ({ p1 with pos := p1.pos + off })).set l.i2
        ({ p2 with pos := p2.pos + off.neg }) := by
    have := movePoint_free_eq (pts.set l.i1 ({ p1 with pos := p1.pos + off })) l.i2 off.neg
      (by rw [hget2]; exact hl2) (by rw [hget2]; exact hg2)
    rw [this, hget2]
  rw [hm1, hm2]
  set pts2 := (pts.set l.i1 ({ p1 with pos := p1.pos + off })).set l.i2
    ({ p2 with pos := p2.pos + off.neg }) with hpts2
  have hq1 : pts2.getD l.i1 defaultPoint = { p1 with pos := p1.pos + off } := by
    rw [hpts2, getD_set_ne _ _ _ _ _ (Ne.symm hne), getD_set_self _ _ _ _ h1]
  have hq2 : pts2.getD l.i2 defaultPoint = { p2 with pos := p2.pos + off.neg } := by
    rw [hpts2, getD_set_self _ _ _ _ (by rw [hsetlen]; exact h2)]
  unfold linkDist
  rw [hq1, hq2]
  have hdiff : ({ p1 with pos := p1.pos + off } : Point).pos -
      ({ p2 with pos := p2.pos + off.neg } : Point).pos = (p1.pos - p2.pos).smul (L / d) := by
    ext
    · show p1.pos.x + off.x - (p2.pos.x + -off.x) = (p1.pos.x - p2.pos.x) * (L / d)
      rw [hoff]
      show p1.pos.x + (p1.pos.x - p2.pos.x) * ((L - d) / d * 0.5) -
        (p2.pos.x + -((p1.pos.x - p2.pos.x) * ((L - d) / d * 0.5))) = (p1.pos.x - p2.pos.x) * (L / d)
      field_simp
      ring
    · show p1.pos.y + off.y - (p2.pos.y + -off.y) = (p1.pos.y - p2.pos.y) * (L / d)
      rw [hoff]
      show p1.pos.y + (p1.pos.y - p2.pos.y) * ((L - d) / d * 0.5) -
        (p2.pos.y + -((p1.pos.y - p2.pos.y) * ((L - d) / d * 0.5))) = (p1.pos.y - p2.pos.y) * (L / d)
      field_simp
      ring
    · show p1.pos.z + off.z - (p2.pos.z + -off.z) = (p1.pos.z - p2.pos.z) * (L / d)
      rw [hoff]
      show p1.pos.z + (p1.pos.z - p2.pos.z) * ((L - d) / d * 0.5) -
        (p2.pos.z + -((p1.pos.z - p2.pos.z) * ((L - d) / d * 0.5))) = (p1.pos.z - p2.pos.z) * (L / d)
      field_simp
      ring
  rw [hdiff, norm3_smul]
  have hnd : norm3 (p1.pos - p2.pos) = d := rfl
  rw [hnd, abs_of_nonneg (div_nonneg hL (le_of_lt hdpos))]
  field_simp

/-! Further helpers for the claims. -/

theorem norm3_x (v : Vec3) (hy : v.y = 0) (hz : v.z = 0) : norm3 v = |v.x| := by
  unfold norm3
  rw [hy, hz]
  simpa using Real.sqrt_mul_self_eq_abs v.x

theorem getD_map_link (f : Link → Link) (l : List Link) (j : Nat) (h : j < l.length) :
    (l.map f).getD j defaultLink = f (l.getD j defaultLink) := by
  simp [List.getD_eq_getElem?_getD, List.getElem?_eq_getElem h]

theorem cutLink_fields (pts : List Point) (lm m : ℝ × ℝ) (w h : ℝ) (lk : Link) :
    (cutLink pts lm m w h lk).i1 = lk.i1 ∧ (cutLink pts lm m w h lk).i2 = lk.i2 ∧
    (cutLink pts lm m w h lk).targetDist = lk.targetDist ∧
    (cutLink pts lm m w h lk).broken =
      (lk.broken || intersects lm m (project (pts.getD lk.i1 defaultPoint).pos w h)
        (project (pts.getD lk.i2 defaultPoint).pos w h)) := by
  unfold cutLink
  dsimp only
  by_cases hI : intersects lm m (project (pts.getD lk.i1 defaultPoint).pos w h)
      (project (pts.getD lk.i2 defaultPoint).pos w h) = true
  · rw [if_pos hI, hI]
    simp
  · rw [if_neg hI]
    rw [Bool.not_eq_true] at hI
    rw [hI]
    simp

/-- Claim C6: the screen-to-world mapping at a known depth is the inverse of
the world-to-screen projection: when the perspective denominator
`focalLength + z + cameraOffset = 900 + p.z + 500` is nonzero, unprojecting
the projection of `p` at depth `p.z` recovers `p` (so in particular `p.x`
and `p.y`) exactly. -/
theorem C6_screen_world_inverse (p : Vec3) (w h : ℝ) (hz : 900 + p.z + 500 ≠ 0) :
    screenToWorldAtDepth (project p w h) p.z w h = p := by
  unfold project screenToWorldAtDepth
  dsimp only
  ext
  · show (w / 2 + p.x * (900 / (900 + p.z + 500)) - w / 2) / (900 / (900 + p.z + 500)) = p.x
    field_simp
    ring
  · show (h / 10 + p.y * (900 / (900 + p.z + 500)) - h / 10) / (900 / (900 + p.z + 500)) = p.y
    field_simp
    ring
  · rfl

/-- Witness for C6 at the concrete point `(1, 2, 3)` in a 1400x900 window. -/
theorem C6_screen_world_inverse_witness :
    screenToWorldAtDepth (project ⟨1, 2, 3⟩ 1400 900) 3 1400 900 = ⟨1, 2, 3⟩ :=
  C6_screen_world_inverse ⟨1, 2, 3⟩ 1400 900 (by norm_num)

/-- Claim C7: `relax` never divides by zero.  If the endpoint distance is
below the epsilon `0.1` (and not above the tear threshold) the pass leaves
the whole state unchanged, and whenever a pass moves any point at all the
distance that the correction factor was divided by was at least `0.1`. -/
theorem C7_degenerate_guard (pts : List Point) (l : Link) (hb : l.broken = false)
    (hsmall : linkDist pts l < 0.1)
    (hnt : ¬ linkDist pts l > l.targetDist * STRETCH_LIMIT) :
    solveLink pts l = (pts, l) ∧
    (∀ (pts2 : List Point) (l2 : Link), (solveLink pts2 l2).1 ≠ pts2 →
      0.1 ≤ linkDist pts2 l2) := by
  constructor
  · rw [solveLink_eq pts l hb, if_neg hnt, if_pos hsmall]
  · intro pts2 l2 hmoved
    by_cases hb2 : l2.broken = true
    · exact absurd (by rw [solveLink_broken_of_broken pts2 l2 hb2]) hmoved
    · rw [Bool.not_eq_true] at hb2
      rw [solveLink_eq pts2 l2 hb2] at hmoved
      by_cases ht : linkDist pts2 l2 > l2.targetDist * STRETCH_LIMIT
      · rw [if_pos ht] at hmoved
        exact absurd rfl hmoved
      · rw [if_neg ht] at hmoved
        by_cases hs : linkDist pts2 l2 < 0.1
        · rw [if_pos hs] at hmoved
          exact absurd rfl hmoved
        · exact not_lt.mp hs

def guardPts : List Point := [mkPoint 0 0 0, mkPoint 0.05 0 0]

def guardLink : Link := ⟨0, 1, 1, false⟩

theorem guardPts_dist : linkDist guardPts guardLink = 0.05 := by
  have hdiff : (guardPts.getD 0 defaultPoint).pos - (guardPts.getD 1 defaultPoint).pos =
      (⟨-0.05, 0, 0⟩ : Vec3) := by
    show (⟨0, 0, 0⟩ : Vec3) - ⟨0.05, 0, 0⟩ = ⟨-0.05, 0, 0⟩
    ext <;> norm_num
  unfold linkDist
  rw [show guardLink.i1 = 0 from rfl, show guardLink.i2 = 1 from rfl, hdiff, norm3_x _ rfl rfl]
  norm_num

/-- Witness for C7: a pair of points `0.05` apart with rest length `1` is
left untouched by a relaxation pass. -/
theorem C7_degenerate_guard_witness : solveLink guardPts guardLink = (guardPts, guardLink) :=
  (C7_degenerate_guard guardPts guardLink rfl
    (by rw [guardPts_dist]; norm_num)
    (by rw [guardPts_dist]; unfold guardLink STRETCH_LIMIT; norm_num)).1

/-- Claim C8: a broken constraint is excluded from relaxation (`solve` is a
no-op on it), neither relaxation nor cutting ever resets `broken` to
`false`, and after a frame's post-iteration removal pass the active
constraint list contains no broken constraint. -/
theorem C8_broken_invariants (pts : List Point) (l : Link) (hb : l.broken = true) :
    solveLink pts l = (pts, l) ∧
    (∀ (pts2 : List Point) (l2 : Link), l2.broken = true →
      ((solveLink pts2 l2).2).broken = true) ∧
    (∀ (pts2 : List Point) (lm m : ℝ × ℝ) (w h : ℝ) (l2 : Link), l2.broken = true →
      (cutLink pts2 lm m w h l2).broken = true) ∧
    (∀ (st : World) (inp : FrameInput) (l2 : Link), l2 ∈ (frame st inp).links →
      l2.broken = false) := by
  refine ⟨solveLink_broken_of_broken pts l hb, ?_, ?_, ?_⟩
  · intro pts2 l2 h2
    rw [solveLink_broken_of_broken pts2 l2 h2]
    exact h2
  · intro pts2 lm m w h l2 h2
    rw [(cutLink_fields pts2 lm m w h l2).2.2.2, h2]
    simp
  · intro st inp l2 hmem
    have hlinks : (frame st inp).links =
        ((solveIterations 8 (handleCut (handleDrag (handleRelease (handlePress st inp) inp)
          inp) inp).points (handleCut (handleDrag (handleRelease (handlePress st inp) inp)
          inp) inp).links).2).filter (fun l => !l.broken) := rfl
    rw [hlinks] at hmem
    have := (List.mem_filter.mp hmem).2
    simpa using this

/-- Witness for C8: `solve` leaves an already broken link and the point
list untouched. -/
theorem C8_broken_invariants_witness :
    solveLink guardPts ⟨0, 1, 1, true⟩ = (guardPts, ⟨0, 1, 1, true⟩) :=
  (C8_broken_invariants guardPts ⟨0, 1, 1, true⟩ rfl).1

/-- Claim C10: the cutting pass only mutates `broken` flags: it leaves the
point list (positions and previous positions), every link's endpoints and
rest length, and the grab state unchanged, and it ors each link's `broken`
flag with the segment-intersection test against the mouse trail. -/
theorem C10_cut_only_breaks (st : World) (inp : FrameInput) (hr : inp.rightHeld = true) :
    (handleCut st inp).points = st.points ∧
    (handleCut st inp).grabbed = st.grabbed ∧
    (handleCut st inp).links.length = st.links.length ∧
    (∀ k, k < st.links.length →
      ((handleCut st inp).links.getD k defaultLink).i1 = (st.links.getD k defaultLink).i1 ∧
      ((handleCut st inp).links.getD k defaultLink).i2 = (st.links.getD k defaultLink).i2 ∧
      ((handleCut st inp).links.getD k defaultLink).targetDist =
        (st.links.getD k defaultLink).targetDist ∧
      ((handleCut st inp).links.getD k defaultLink).broken =
        ((st.links.getD k defaultLink).broken ||
          intersects st.lastMouse inp.mouse
            (project (st.points.getD ((st.links.getD k defaultLink).i1) defaultPoint).pos
              inp.winW inp.winH)
            (project (st.points.getD ((st.links.getD k defaultLink).i2) defaultPoint).pos
              inp.winW inp.winH))) := by
  have heq : handleCut st inp =
      { st with links := cutPass st.points st.lastMouse inp.mouse inp.winW inp.winH st.links } := by
    simp [handleCut, hr]
  rw [heq]
  refine ⟨rfl, rfl, by simp [cutPass], ?_⟩
  intro k hk
  dsimp only
  have hmap : (cutPass st.points st.lastMouse inp.mouse inp.winW inp.winH st.links).getD k
      defaultLink =
      cutLink st.points st.lastMouse inp.mouse inp.winW inp.winH (st.links.getD k defaultLink) := by
    unfold cutPass
    exact getD_map_link _ _ _ hk
  rw [hmap]
  exact cutLink_fields st.points st.lastMouse inp.mouse inp.winW inp.winH
    (st.links.getD k defaultLink)

/-- Witness for C10 on a one-link world with the right button held. -/
theorem C10_cut_only_breaks_witness :
    (handleCut ⟨guardPts, [guardLink], none, (0, 0)⟩
      ⟨(1, 1), 1400, 900, false, false, true, 0⟩).points = guardPts :=
  (C10_cut_only_breaks ⟨guardPts, [guardLink], none, (0, 0)⟩
    ⟨(1, 1), 1400, 900, false, false, true, 0⟩ rfl).1

/-- Claim C1: an unbroken constraint becomes broken under `relax` exactly
when the live distance exceeds `restLength * stretchLimit`; in particular
it stays unbroken at distance `restLength * stretchLimit - eps` (eps >= 0)
and breaks at `restLength * stretchLimit + eps` (eps > 0), and a broken
constraint can never become unbroken again. -/
theorem C1_tear_threshold (pts : List Point) (l : Link) (hb : l.broken = false) :
    (((solveLink pts l).2).broken = true ↔ linkDist pts l > l.targetDist * STRETCH_LIMIT) ∧
    (∀ eps : ℝ, 0 ≤ eps → linkDist pts l = l.targetDist * STRETCH_LIMIT - eps →
      ((solveLink pts l).2).broken = false) ∧
    (∀ eps : ℝ, 0 < eps → linkDist pts l = l.targetDist * STRETCH_LIMIT + eps →
      ((solveLink pts l).2).broken = true) ∧
    (∀ (pts2 : List Point) (l2 : Link), l2.broken = true →
      ((solveLink pts2 l2).2).broken = true) := by
  have hiff : ((solveLink pts l).2).broken = true ↔
      linkDist pts l > l.targetDist * STRETCH_LIMIT := by
    rw [solveLink_eq pts l hb]
    split_ifs with h1 h2 <;> simp [hb, h1]
  refine ⟨hiff, ?_, ?_, ?_⟩
  · intro eps heps hdist
    rw [Bool.eq_false_iff]
    intro hbrk
    have := hiff.mp hbrk
    rw [hdist] at this
    linarith
  · intro eps heps hdist
    exact hiff.mpr (by rw [hdist]; linarith)
  · intro pts2 l2 h2
    rw [solveLink_broken_of_broken pts2 l2 h2]
    exact h2

def tearPts : List Point := [mkPoint 0 0 0, mkPoint 11 0 0]

def tearLink : Link := ⟨0, 1, 2, false⟩

theorem tearPts_dist : linkDist tearPts tearLink = 11 := by
  have hdiff : (tearPts.getD 0 defaultPoint).pos - (tearPts.getD 1 defaultPoint).pos =
      (⟨-11, 0, 0⟩ : Vec3) := by
    show (⟨0, 0, 0⟩ : Vec3) - ⟨11, 0, 0⟩ = ⟨-11, 0, 0⟩
    ext <;> norm_num
  unfold linkDist
  rw [show tearLink.i1 = 0 from rfl, show tearLink.i2 = 1 from rfl, hdiff, norm3_x _ rfl rfl]
  norm_num

/-- Witness for C1: a rest length 2 link stretched to distance 11 = 2*5+1
snaps in one pass. -/
theorem C1_tear_threshold_witness : ((solveLink tearPts tearLink).2).broken = true :=
  (C1_tear_threshold tearPts tearLink rfl).2.2.1 1 (by norm_num)
    (by rw [tearPts_dist]; unfold tearLink STRETCH_LIMIT; norm_num)

theorem iterLink_succ_right (n : Nat) (s : List Point × Link) :
    iterLink (n + 1) s = solveLink (iterLink n s).1 (iterLink n s).2 := by
  induction n generalizing s with
  | zero => rfl
  | succ n ih =>
    show iterLink (n + 1) (solveLink s.1 s.2) = _
    rw [ih (solveLink s.1 s.2)]
    rfl

/-- Once a free pair sits at the rest length, one more pass keeps it there. -/
theorem solveLink_keeps_rest (pts2 : List Point) (l : Link)
    (h1 : l.i1 < pts2.length) (h2 : l.i2 < pts2.length) (hne : l.i1 ≠ l.i2)
    (hl1 : (pts2.getD l.i1 defaultPoint).locked = false)
    (hg1 : (pts2.getD l.i1 defaultPoint).isGrabbed = false)
    (hl2 : (pts2.getD l.i2 defaultPoint).locked = false)
    (hg2 : (pts2.getD l.i2 defaultPoint).isGrabbed = false)
    (hb : l.broken = false) (hL : 0 ≤ l.targetDist)
    (hrest : linkDist pts2 l = l.targetDist) :
    (solveLink pts2 l).2 = l ∧ linkDist (solveLink pts2 l).1 l = l.targetDist := by
  by_cases hsmall : linkDist pts2 l < 0.1
  · rw [solveLink_at_rest pts2 l hb hrest]
    exact ⟨rfl, hrest⟩
  · exact solveLink_restores pts2 l h1 h2 hne hl1 hg1 hl2 hg2 hb hL (not_lt.mp hsmall)
      (by rw [hrest]; unfold STRETCH_LIMIT; nlinarith)

/-- Claim C3: a single free constraint perturbed away from its rest length
(above the degenerate epsilon, at or below the tear threshold) returns to
its rest length: after every pass from the first on the distance equals the
rest length exactly, so the error `|currentDistance - restLength|` is
monotonically non-increasing and reaches zero. -/
theorem C3_convergence (pts : List Point) (l : Link)
    (h1 : l.i1 < pts.length) (h2 : l.i2 < pts.length) (hne : l.i1 ≠ l.i2)
    (hl1 : (pts.getD l.i1 defaultPoint).locked = false)
    (hg1 : (pts.getD l.i1 defaultPoint).isGrabbed = false)
    (hl2 : (pts.getD l.i2 defaultPoint).locked = false)
    (hg2 : (pts.getD l.i2 defaultPoint).isGrabbed = false)
    (hb : l.broken = false) (hL : 0 ≤ l.targetDist)
    (hd1 : 0.1 ≤ linkDist pts l) (hd2 : linkDist pts l ≤ l.targetDist * STRETCH_LIMIT) :
    (∀ n, 1 ≤ n → linkDist (iterLink n (pts, l)).1 l = l.targetDist) ∧
    (∀ n, |linkDist (iterLink (n + 1) (pts, l)).1 l - l.targetDist| ≤
      |linkDist (iterLink n (pts, l)).1 l - l.targetDist|) := by
  have hstep0 := solveLink_restores pts l h1 h2 hne hl1 hg1 hl2 hg2 hb hL hd1 hd2
  have hinv : ∀ n, (iterLink (n + 1) (pts, l)).2 = l ∧
      linkDist (iterLink (n + 1) (pts, l)).1 l = l.targetDist ∧
      ((iterLink (n + 1) (pts, l)).1.getD l.i1 defaultPoint).locked = false ∧
      ((iterLink (n + 1) (pts, l)).1.getD l.i1 defaultPoint).isGrabbed = false ∧
      ((iterLink (n + 1) (pts, l)).1.getD l.i2 defaultPoint).locked = false ∧
      ((iterLink (n + 1) (pts, l)).1.getD l.i2 defaultPoint).isGrabbed = false ∧
      (iterLink (n + 1) (pts, l)).1.length = pts.length := by
    intro n
    induction n with
    | zero =>
      have he : iterLink 1 (pts, l) = solveLink pts l := rfl
      rw [he]
      have hv1 := solveLink_view pts l l.i1
      have hv2 := solveLink_view pts l l.i2
      exact ⟨hstep0.1, hstep0.2, hv1.1.trans hl1, hv1.2.1.trans hg1, hv2.1.trans hl2,
        hv2.2.1.trans hg2, solveLink_points_length pts l⟩
    | succ n ih =>
      obtain ⟨ha, hbd, f1, f2, f3, f4, hlen⟩ := ih
      have he := iterLink_succ_right (n + 1) (pts, l)
      rw [he, ha]
      set q := (iterLink (n + 1) (pts, l)).1 with hq
      have hres := solveLink_keeps_rest q l (hlen ▸ h1) (hlen ▸ h2) hne f1 f2 f3 f4 hb hL hbd
      have hv1 := solveLink_view q l l.i1
      have hv2 := solveLink_view q l l.i2
      exact ⟨hres.1, hres.2, hv1.1.trans f1, hv1.2.1.trans f2, hv2.1.trans f3,
        hv2.2.1.trans f4, (solveLink_points_length q l).trans hlen⟩
  constructor
  · intro n hn
    cases n with
    | zero => omega
    | succ m => exact (hinv m).2.1
  · intro n
    cases n with
    | zero =>
      rw [(hinv 0).2.1, sub_self, abs_zero]
      exact abs_nonneg _
    | succ m =>
      rw [(hinv m).2.1, (hinv (m + 1)).2.1]

def convPts : List Point := [mkPoint 0 0 0, mkPoint 3 0 0]

def convLink : Link := ⟨0, 1, 2, false⟩

theorem convPts_dist : linkDist convPts convLink = 3 := by
  have hdiff : (convPts.getD 0 defaultPoint).pos - (convPts.getD 1 defaultPoint).pos =
      (⟨-3, 0, 0⟩ : Vec3) := by
    show (⟨0, 0, 0⟩ : Vec3) - ⟨3, 0, 0⟩ = ⟨-3, 0, 0⟩
    ext <;> norm_num
  unfold linkDist
  rw [show convLink.i1 = 0 from rfl, show convLink.i2 = 1 from rfl, hdiff, norm3_x _ rfl rfl]
  norm_num

/-- Witness for C3: two free points 3 apart with rest length 2 are back at
distance exactly 2 after one relaxation pass. -/
theorem C3_convergence_witness : linkDist (iterLink 1 (convPts, convLink)).1 convLink = 2 :=
  (C3_convergence convPts convLink (by norm_num [convPts, convLink]) (by norm_num [convPts, convLink])
    (by norm_num [convLink]) rfl rfl rfl rfl rfl (by norm_num [convLink])
    (by rw [convPts_dist]; norm_num)
    (by rw [convPts_dist]; norm_num [convLink, STRETCH_LIMIT])).1 1 (le_refl 1)

/-- Claim C4: while a particle is grabbed (and no press or release event
fires this frame), one full frame cycle — drag override, the eight
relaxation passes, eviction, and integration — leaves its position exactly
at the inverse-projected pointer position at the depth it had before the
cycle, with its previous position equal to its position. -/
theorem C4_grab_override (st : World) (inp : FrameInput) (i : Nat)
    (hg : st.grabbed = some i) (hi : i < st.points.length)
    (hgr : (st.points.getD i defaultPoint).isGrabbed = true)
    (hp : inp.pressLeft = false) (hr : inp.releaseLeft = false) :
    ((frame st inp).points.getD i defaultPoint).pos =
      screenToWorldAtDepth inp.mouse ((st.points.getD i defaultPoint).pos.z)
        inp.winW inp.winH ∧
    ((frame st inp).points.getD i defaultPoint).prevPos =
      ((frame st inp).points.getD i defaultPoint).pos := by
  have h1 : handlePress st inp = st := by simp [handlePress, hp]
  have h2 : handleRelease st inp = st := by simp [handleRelease, hr]
  have h3 : handleDrag st inp =
      { st with
        points := st.points.set i ({ st.points.getD i defaultPoint with pos := screenToWorldAtDepth inp.mouse (st.points.getD i defaultPoint).pos.z inp.winW inp.winH, prevPos := screenToWorldAtDepth inp.mouse (st.points.getD i defaultPoint).pos.z inp.winW inp.winH }) } := by
    simp [handleDrag, hg]
  set q : Point := { st.points.getD i defaultPoint with
      pos := screenToWorldAtDepth inp.mouse (st.points.getD i defaultPoint).pos.z
        inp.winW inp.winH,
      prevPos := screenToWorldAtDepth inp.mouse (st.points.getD i defaultPoint).pos.z
        inp.winW inp.winH } with hqdef
  set st4 := handleCut (handleDrag (handleRelease (handlePress st inp) inp) inp) inp with hst4
  have hpts4 : st4.points = st.points.set i q := by
    rw [hst4, (handleCut_points _ inp).1, h1, h2, h3]
  have hq4 : st4.points.getD i defaultPoint = q := by
    rw [hpts4]
    exact getD_set_self _ _ _ _ hi
  have hqg : q.isGrabbed = true := hgr
  have hilenS : i < ((solveIterations 8 st4.points st4.links).1).length := by
    rw [solveIterations_points_length, hpts4]
    simpa using hi
  have hview := solveIterations_view 8 st4.points st4.links i
  have hS : ((solveIterations 8 st4.points st4.links).1).getD i defaultPoint = q := by
    rw [hview.2.2.2 (Or.inr (by rw [hq4]; exact hqg)), hq4]
  have hfr : (frame st inp).points =
      ((solveIterations 8 st4.points st4.links).1).map
        (fun p => p.update (inp.time * 1.5)) := rfl
  have hfin : (frame st inp).points.getD i defaultPoint = q := by
    rw [hfr, getD_map_lt _ _ _ _ hilenS, hS,
      (update_props q (inp.time * 1.5)).2.2.2 hqg]
  rw [hfin]
  exact ⟨rfl, rfl⟩

def grabPts : List Point := [⟨⟨0, 0, 0⟩, ⟨0, 0, 0⟩, false, true⟩]

def grabWorld : World := ⟨grabPts, [], some 0, (0, 0)⟩

def grabInput : FrameInput := ⟨(700, 400), 1400, 900, false, false, false, 0⟩

/-- Witness for C4: a grabbed point at the origin tracks the pointer at
`(700, 400)` in a 1400x900 window after a full frame. -/
theorem C4_grab_override_witness :
    ((frame grabWorld grabInput).points.getD 0 defaultPoint).pos =
      screenToWorldAtDepth (700, 400) 0 1400 900 ∧
    ((frame grabWorld grabInput).points.getD 0 defaultPoint).prevPos =
      ((frame grabWorld grabInput).points.getD 0 defaultPoint).pos :=
  C4_grab_override grabWorld grabInput 0 rfl (by norm_num [grabWorld, grabPts]) rfl rfl rfl

/-- Claim C2: a particle whose `locked` flag is set keeps its position
through every sequence of frames (each frame comprising press/release
picking, dragging, cutting, the eight relaxation passes, eviction and
integration), provided the interaction state is well formed (the grabbed
reference, if any, points at an unlocked particle — guaranteed at creation
where nothing is grabbed, and preserved by every frame). -/
theorem C2_lock_invariant (st : World) (inps : List FrameInput) (j : Nat)
    (hwf : WF st) (hlock : (st.points.getD j defaultPoint).locked = true) :
    ((runFrames st inps).points.getD j defaultPoint).pos =
      (st.points.getD j defaultPoint).pos := by
  obtain ⟨hv, _⟩ := runFrames_locked st inps hwf j
  rw [hv.2 hlock]

def lockPts : List Point := [⟨⟨1, 2, 3⟩, ⟨1, 2, 3⟩, true, false⟩]

def lockWorld : World := ⟨lockPts, [], none, (0, 0)⟩

def lockInput : FrameInput := ⟨(321, 123), 1400, 900, true, false, true, 2⟩

/-- Witness for C2: a locked particle at `(1, 2, 3)` is still there after a
frame with a click and a cut gesture. -/
theorem C2_lock_invariant_witness :
    ((runFrames lockWorld [lockInput]).points.getD 0 defaultPoint).pos =
      (lockWorld.points.getD 0 defaultPoint).pos :=
  C2_lock_invariant lockWorld [lockInput] 0 (by intro i h; simp [lockWorld] at h) rfl

/-- Twice the signed area of the triangle `p q r` (used to phrase the
spec's orientation-based description of the cut test). -/
def orient (p q r : ℝ × ℝ) : ℝ :=
  (q.1 - p.1) * (r.2 - p.2) - (q.2 - p.2) * (r.1 - p.1)

/-- The spec's reading of the cut test: two segments intersect iff each
segment's endpoints lie on strictly opposite sides, by signed-area
orientation, of the other segment's line. -/
def SpecCross (a b c d : ℝ × ℝ) : Prop :=
  orient c d a * orient c d b < 0 ∧ orient a b c * orient a b d < 0

theorem orient_cyclic (p q r : ℝ × ℝ) : orient p q r = orient q r p := by
  unfold orient
  ring

theorem ccw_iff (p0 p1 p2 : ℝ × ℝ) : ccw p0 p1 p2 = true ↔ 0 < orient p0 p1 p2 := by
  unfold ccw orient
  rw [decide_eq_true_eq]
  constructor <;> intro hlt <;> nlinarith

theorem bool_bne_iff (b1 b2 : Bool) : ((b1 != b2) = true) ↔ ¬(b1 = true ↔ b2 = true) := by
  cases b1 <;> cases b2 <;> simp

theorem not_iff_pos_iff (u v : ℝ) (hu : u ≠ 0) (hv : v ≠ 0) :
    (¬(0 < u ↔ 0 < v)) ↔ u * v < 0 := by
  constructor
  · intro hne
    rcases hu.lt_or_lt with h | h <;> rcases hv.lt_or_lt with h2 | h2
    · exact absurd (iff_of_false (not_lt.mpr h.le) (not_lt.mpr h2.le)) hne
    · nlinarith
    · nlinarith
    · exact absurd (iff_of_true h h2) hne
  · intro hlt hiff
    rcases lt_trichotomy u 0 with h | h | h
    · have hv2 : 0 < v := by nlinarith
      have := hiff.mpr hv2
      linarith
    · exact hu h
    · have hv2 : v < 0 := by nlinarith
      have := hiff.mp h
      linarith

/-- In general position the code's `intersects` agrees with the spec's
opposite-sides characterization. -/
theorem intersects_iff_specCross (a b c d : ℝ × ℝ)
    (h1 : orient c d a ≠ 0) (h2 : orient c d b ≠ 0)
    (h3 : orient a b c ≠ 0) (h4 : orient a b d ≠ 0) :
    (intersects a b c d = true ↔ SpecCross a b c d) := by
  unfold intersects SpecCross
  rw [Bool.and_eq_true, bool_bne_iff, bool_bne_iff, ccw_iff, ccw_iff, ccw_iff, ccw_iff,
    orient_cyclic a c d, orient_cyclic b c d]
  exact and_congr (not_iff_pos_iff _ _ h1 h2) (not_iff_pos_iff _ _ h3 h4)

/-- Claim C5: for a constraint whose projected endpoints are `(0, 0)` and
`(10, 10)`, the cut check on the pointer motion `(5, -5)` to `(5, 15)`
marks it broken, the cut check on `(20, 20)` to `(30, 30)` leaves it
unchanged, and the check is the orientation-based segment-intersection
test (in general position, segments intersect iff each segment's endpoints
lie on opposite sides of the other segment's line). -/
theorem C5_cut_check (pts : List Point) (l : Link) (w h : ℝ)
    (hq1 : project (pts.getD l.i1 defaultPoint).pos w h = (0, 0))
    (hq2 : project (pts.getD l.i2 defaultPoint).pos w h = (10, 10)) :
    (cutLink pts (5, -5) (5, 15) w h l).broken = true ∧
    cutLink pts (20, 20) (30, 30) w h l = l ∧
    (∀ a b c d : ℝ × ℝ, orient c d a ≠ 0 → orient c d b ≠ 0 → orient a b c ≠ 0 →
      orient a b d ≠ 0 → (intersects a b c d = true ↔ SpecCross a b c d)) := by
  have c1 : ccw (5, -5) ((0 : ℝ), (0 : ℝ)) (10, 10) = false := by
    unfold ccw
    rw [decide_eq_false_iff_not]
    norm_num
  have c2 : ccw (5, 15) ((0 : ℝ), (0 : ℝ)) (10, 10) = true := by
    unfold ccw
    rw [decide_eq_true_eq]
    norm_num
  have c3 : ccw (5, -5) ((5 : ℝ), (15 : ℝ)) (0, 0) = true := by
    unfold ccw
    rw [decide_eq_true_eq]
    norm_num
  have c4 : ccw (5, -5) ((5 : ℝ), (15 : ℝ)) (10, 10) = false := by
    unfold ccw
    rw [decide_eq_false_iff_not]
    norm_num
  have hint1 : intersects (5, -5) (5, 15) ((0 : ℝ), (0 : ℝ)) (10, 10) = true := by
    unfold intersects
    rw [c1, c2, c3, c4]
    rfl
  have d1 : ccw (20, 20) ((0 : ℝ), (0 : ℝ)) (10, 10) = false := by
    unfold ccw
    rw [decide_eq_false_iff_not]
    norm_num
  have d2 : ccw (30, 30) ((0 : ℝ), (0 : ℝ)) (10, 10) = false := by
    unfold ccw
    rw [decide_eq_false_iff_not]
    norm_num
  have hint2 : intersects (20, 20) (30, 30) ((0 : ℝ), (0 : ℝ)) (10, 10) = false := by
    unfold intersects
    rw [d1, d2]
    rfl
  refine ⟨?_, ?_, fun a b c d => intersects_iff_specCross a b c d⟩
  · unfold cutLink
    dsimp only
    rw [hq1, hq2, if_pos hint1]
  · unfold cutLink
    dsimp only
    rw [hq1, hq2, if_neg (by rw [hint2]; exact Bool.false_ne_true)]

def cutDemoPts : List Point := [mkPoint 0 0 (-500), mkPoint 10 10 (-500)]

def cutDemoLink : Link := ⟨0, 1, 1, false⟩

theorem cutDemoPts_proj1 : project (cutDemoPts.getD 0 defaultPoint).pos 0 0 = (0, 0) := by
  unfold project
  dsimp only
  show ((0 : ℝ) / 2 + 0 * (900 / (900 + -500 + 500)), (0 : ℝ) / 10 + 0 * (900 / (900 + -500 + 500))) = ((0 : ℝ), (0 : ℝ))
  norm_num

theorem cutDemoPts_proj2 : project (cutDemoPts.getD 1 defaultPoint).pos 0 0 = (10, 10) := by
  unfold project
  dsimp only
  show ((0 : ℝ) / 2 + 10 * (900 / (900 + -500 + 500)), (0 : ℝ) / 10 + 10 * (900 / (900 + -500 + 500))) = ((10 : ℝ), (10 : ℝ))
  norm_num

/-- Witness for C5 on a concrete two-point world whose link projects to
the segment from `(0, 0)` to `(10, 10)`. -/
theorem C5_cut_check_witness :
    (cutLink cutDemoPts (5, -5) (5, 15) 0 0 cutDemoLink).broken = true ∧
    cutLink cutDemoPts (20, 20) (30, 30) 0 0 cutDemoLink = cutDemoLink := by
  have h := C5_cut_check cutDemoPts cutDemoLink 0 0 cutDemoPts_proj1 cutDemoPts_proj2
  exact ⟨h.1, h.2.1⟩

theorem solveAll_at_rest (pts : List Point) (ls : List Link)
    (h : ∀ l ∈ ls, solveLink pts l = (pts, l)) : solveAll pts ls = (pts, ls) := by
  induction ls with
  | nil => rfl
  | cons l ls ih =>
    show ((solveAll (solveLink pts l).1 ls).1, (solveLink pts l).2 ::
      (solveAll (solveLink pts l).1 ls).2) = (pts, l :: ls)
    rw [h l (List.mem_cons_self _ _), ih (fun l2 h2 => h l2 (List.mem_cons_of_mem _ h2))]

theorem solveIterations_at_rest (n : Nat) (pts : List Point) (ls : List Link)
    (h : ∀ l ∈ ls, solveLink pts l = (pts, l)) : solveIterations n pts ls = (pts, ls) := by
  induction n with
  | zero => rfl
  | succ n ih =>
    show solveIterations n (solveAll pts ls).1 (solveAll pts ls).2 = (pts, ls)
    rw [solveAll_at_rest pts ls h]
    exact ih

theorem mkGridLinks_shape (pts : List Point) (W H : Nat) :
    ∀ l ∈ mkGridLinks pts W H, ∃ i j, l = mkLink pts i j := by
  intro l hl
  unfold mkGridLinks at hl
  rw [List.mem_flatMap] at hl
  obtain ⟨y, hy, hl⟩ := hl
  rw [List.mem_flatMap] at hl
  obtain ⟨x, hx, hl⟩ := hl
  rw [List.mem_append] at hl
  rcases hl with hl | hl
  · by_cases hxw : x < W - 1
    · rw [if_pos hxw, List.mem_singleton] at hl
      exact ⟨_, _, hl⟩
    · rw [if_neg hxw] at hl
      exact absurd hl (List.not_mem_nil l)
  · by_cases hyh : y < H - 1
    · rw [if_pos hyh, List.mem_singleton] at hl
      exact ⟨_, _, hl⟩
    · rw [if_neg hyh] at hl
      exact absurd hl (List.not_mem_nil l)

/-- A link built by the grid constructor starts exactly at rest, so one
relaxation pass leaves the whole state unchanged. -/
theorem mkLink_at_rest (pts : List Point) (i j : Nat) :
    solveLink pts (mkLink pts i j) = (pts, mkLink pts i j) :=
  solveLink_at_rest pts (mkLink pts i j) rfl rfl

/-- An unlocked, ungrabbed point at rest gains exactly `GRAVITY` of
vertical position relative to its new previous position. -/
theorem update_falls (p : Point) (t : ℝ) (hl : p.locked = false) (hg : p.isGrabbed = false)
    (hrest : p.prevPos = p.pos) :
    (p.update t).prevPos = p.pos ∧ (p.update t).pos.y = p.pos.y + GRAVITY := by
  unfold Point.update
  rw [if_neg (by simp [hl, hg])]
  dsimp only
  refine ⟨rfl, ?_⟩
  show p.pos.y + (p.pos.y - p.prevPos.y) * AIR_FRICTION + GRAVITY = p.pos.y + GRAVITY
  rw [hrest]
  ring

/-- A frame with no pointer input and nothing grabbed is just the solver
iterations, the eviction pass and the integration step. -/
theorem frame_no_input (st : World) (inp : FrameInput)
    (hp : inp.pressLeft = false) (hr : inp.releaseLeft = false)
    (hc : inp.rightHeld = false) (hg : st.grabbed = none) :
    frame st inp =
      ⟨((solveIterations 8 st.points st.links).1).map (fun p => p.update (inp.time * 1.5)),
        ((solveIterations 8 st.points st.links).2).filter (fun l => !l.broken),
        none, inp.mouse⟩ := by
  have e1 : handlePress st inp = st := by simp [handlePress, hp]
  have e2 : handleRelease st inp = st := by simp [handleRelease, hr]
  have e3 : handleDrag st inp = st := by simp [handleDrag, hg]
  have e4 : handleCut st inp = st := by simp [handleCut, hc]
  unfold frame
  dsimp only
  rw [e1, e2, e3, e4, hg]

def gridWorld (D lmx lmy : ℝ) : World :=
  ⟨mkGridPoints 3 3 D, mkGridLinks (mkGridPoints 3 3 D) 3 3, none, (lmx, lmy)⟩

def idleInput (mx my w h t : ℝ) : FrameInput := ⟨(mx, my), w, h, false, false, false, t⟩

/-- Claim C9: starting from the 3x3 grid with the top row locked, uniform
spacing `D` and all particles at rest, one full frame with no pointer
input moves every non-top-row particle downward (its `y` strictly exceeds
its stored previous `y`) and leaves every top-row particle unchanged. -/
theorem C9_grid_first_frame (D lmx lmy mx my w h t : ℝ) :
    (∀ j, 3 ≤ j → j < 9 →
      ((frame (gridWorld D lmx lmy) (idleInput mx my w h t)).points.getD j
        defaultPoint).prevPos.y <
      ((frame (gridWorld D lmx lmy) (idleInput mx my w h t)).points.getD j
        defaultPoint).pos.y) ∧
    (∀ j, j < 3 →
      (frame (gridWorld D lmx lmy) (idleInput mx my w h t)).points.getD j defaultPoint =
        (mkGridPoints 3 3 D).getD j defaultPoint) := by
  have hrest : ∀ l ∈ mkGridLinks (mkGridPoints 3 3 D) 3 3,
      solveLink (mkGridPoints 3 3 D) l = (mkGridPoints 3 3 D, l) := by
    intro l hl
    obtain ⟨i, j, rfl⟩ := mkGridLinks_shape (mkGridPoints 3 3 D) 3 3 l hl
    exact mkLink_at_rest (mkGridPoints 3 3 D) i j
  have hbroken : ∀ l ∈ mkGridLinks (mkGridPoints 3 3 D) 3 3, l.broken = false := by
    intro l hl
    obtain ⟨i, j, rfl⟩ := mkGridLinks_shape (mkGridPoints 3 3 D) 3 3 l hl
    rfl
  have e5 : solveIterations 8 (mkGridPoints 3 3 D) (mkGridLinks (mkGridPoints 3 3 D) 3 3) =
      (mkGridPoints 3 3 D, mkGridLinks (mkGridPoints 3 3 D) 3 3) :=
    solveIterations_at_rest 8 _ _ hrest
  have hframe : frame (gridWorld D lmx lmy) (idleInput mx my w h t) =
      ⟨(mkGridPoints 3 3 D).map (fun p => p.update (t * 1.5)),
        mkGridLinks (mkGridPoints 3 3 D) 3 3, none, (mx, my)⟩ := by
    rw [frame_no_input (gridWorld D lmx lmy) (idleInput mx my w h t) rfl rfl rfl rfl]
    show (⟨((solveIterations 8 (mkGridPoints 3 3 D)
        (mkGridLinks (mkGridPoints 3 3 D) 3 3)).1).map (fun p => p.update (t * 1.5)),
      ((solveIterations 8 (mkGridPoints 3 3 D)
        (mkGridLinks (mkGridPoints 3 3 D) 3 3)).2).filter (fun l => !l.broken),
      none, (mx, my)⟩ : World) = _
    rw [e5]
    have hfilter : (mkGridLinks (mkGridPoints 3 3 D) 3 3).filter (fun l => !l.broken) =
        mkGridLinks (mkGridPoints 3 3 D) 3 3 :=
      List.filter_eq_self.mpr (fun l hl => by rw [hbroken l hl]; rfl)
    rw [hfilter]
  have hmap : ∀ j, j < 9 →
      (frame (gridWorld D lmx lmy) (idleInput mx my w h t)).points.getD j defaultPoint =
        ((mkGridPoints 3 3 D).getD j defaultPoint).update (t * 1.5) := by
    intro j hj
    rw [hframe]
    exact getD_map_lt _ _ _ _ hj
  constructor
  · intro j hj3 hj9
    rw [hmap j hj9]
    have hlq : ((mkGridPoints 3 3 D).getD j defaultPoint).locked = false := by
      interval_cases j <;> rfl
    have hgq : ((mkGridPoints 3 3 D).getD j defaultPoint).isGrabbed = false := by
      interval_cases j <;> rfl
    have hrq : ((mkGridPoints 3 3 D).getD j defaultPoint).prevPos =
        ((mkGridPoints 3 3 D).getD j defaultPoint).pos := by
      interval_cases j <;> rfl
    obtain ⟨hu1, hu2⟩ := update_falls ((mkGridPoints 3 3 D).getD j defaultPoint) (t * 1.5)
      hlq hgq hrq
    rw [hu1, hu2]
    unfold GRAVITY
    linarith
  · intro j hj3
    rw [hmap j (by omega)]
    have hlq : ((mkGridPoints 3 3 D).getD j defaultPoint).locked = true := by
      interval_cases j <;> rfl
    exact (update_props _ (t * 1.5)).2.2.1 hlq

/-- Witness for C9 at spacing 18 (the source's point spacing), checking one
hanging particle and one pinned particle. -/
theorem C9_grid_first_frame_witness :
    ((frame (gridWorld 18 0 0) (idleInput 1 2 1400 900 0)).points.getD 4
      defaultPoint).prevPos.y <
    ((frame (gridWorld 18 0 0) (idleInput 1 2 1400 900 0)).points.getD 4
      defaultPoint).pos.y ∧
    (frame (gridWorld 18 0 0) (idleInput 1 2 1400 900 0)).points.getD 1 defaultPoint =
      (mkGridPoints 3 3 18).getD 1 defaultPoint := by
  have h := C9_grid_first_frame 18 0 0 1 2 1400 900 0
  exact ⟨h.1 4 (by norm_num) (by norm_num), h.2 1 (by norm_num)⟩

end FabricSim
